import Mathlib

/-!
Verification of the registration layer in `src/kodo_python/create_helpers.hpp`.

The layer exposes (Coder × Field) coding stacks to a host runtime under
derived names.  `create_encoder` / `create_decoder` (the Stack Expansion
Driver) walk the closed set of four field variants and, for each, register a
factory type and then the role type, both instantiated with the capability
list `typelist<kodo::enable_trace>`.

The driver itself is translated from the source.  The registrar bodies
(`factory.hpp`, `encoder.hpp`, `decoder.hpp`), the field-name table
(`resolve_field_name.hpp`) and the host runtime's register-under-name
operation are not part of the given source tree; they are modelled from the
spec, which states that each registrar registers exactly one native type
under a name derived from the stack identifier, the field tag and the role
tag, and that the host mechanism fails loudly on a name collision.
-/

namespace KodoPython

/-- The four finite-field variants (fifi/binary.hpp, binary4.hpp,
binary8.hpp, binary16.hpp): a fixed, closed set of opaque type tags. -/
inductive Field where
  | binary
  | binary4
  | binary8
  | binary16
deriving DecidableEq, Repr

/-- Cross-cutting capability traits (kodo/enable_trace.hpp); the layer
currently uses exactly one, `enable_trace`. -/
inductive Capability where
  | enableTrace
deriving DecidableEq, Repr

/-- The role of a registered native type: a factory, an encoder or a
decoder. -/
inductive Role where
  | factoryRole
  | encoderRole
  | decoderRole
deriving DecidableEq, Repr

/-- Modelled from the spec: resolve_field_name.hpp (not under src/) maps
each field variant to its fixed textual tag used in derived names. -/
def fieldName : Field → String
  | Field.binary => "binary"
  | Field.binary4 => "binary4"
  | Field.binary8 => "binary8"
  | Field.binary16 => "binary16"

/-- The textual tag of a role in a derived binding name. -/
def roleTag : Role → String
  | Role.factoryRole => "factory"
  | Role.encoderRole => "encoder"
  | Role.decoderRole => "decoder"

/-- The suffix appended to the stack identifier in a derived name: an
underscore, the field tag, an underscore and the role tag. -/
def nameSuffix (f : Field) (r : Role) : String :=
  "_" ++ fieldName f ++ "_" ++ roleTag r

/-- Modelled from the spec: each generated binding's name is derived
deterministically from the stack identifier, the field tag and the role
tag (spec section 6, naming scheme). -/
def deriveName (stack : String) (f : Field) (r : Role) : String :=
  stack ++ nameSuffix f r

/-- A binding handed to the host runtime: the identity of the native type
(coder template, field, ordered capability list, role) together with the
name it is registered under. -/
structure Binding where
  coder : String
  field : Field
  caps : List Capability
  role : Role
  name : String
deriving DecidableEq, Repr

/-- Build the binding a registrar produces for a given coder template,
field, capability list, role and stack identifier. -/
def mkBinding (coder : String) (f : Field) (caps : List Capability)
    (r : Role) (stack : String) : Binding :=
  { coder := coder, field := f, caps := caps, role := r,
    name := deriveName stack f r }

/-- The host runtime's state as observed by this layer: the name→type
registry in insertion order, plus the trace of registration attempts
(names, in the order they were attempted). -/
structure RunState where
  reg : List Binding
  attempts : List String
deriving DecidableEq, Repr

/-- The single error the registration boundary can produce: a naming
collision on the attempted name. -/
inductive RegError where
  | nameCollision (name : String)
deriving DecidableEq, Repr

/-- Modelled from the spec: the host runtime's "register native type T
under name N" operation (external collaborator), assumed to fail loudly on
a name collision and to be otherwise side-effect-free.  On collision the
registry is left unchanged; on success the binding is appended.  Every
call is recorded in the attempt trace. -/
def registerBinding (st : RunState) (b : Binding) : RunState × Option RegError :=
  if st.reg.any (fun b0 => b0.name == b.name) then
    ({ st with attempts := st.attempts ++ [b.name] },
      some (RegError.nameCollision b.name))
  else
    ({ reg := st.reg ++ [b], attempts := st.attempts ++ [b.name] }, none)

/-- Sequence two registration steps: the continuation runs only when the
first step succeeded; an error aborts immediately, keeping the state at
the failure point (the C++ exception propagates out of the driver). -/
def andThen (r : RunState × Option RegError)
    (f : RunState → RunState × Option RegError) : RunState × Option RegError :=
  match r with
  | (st, none) => f st
  | (st, some e) => (st, some e)

/-- Modelled from the spec: factory.hpp (not under src/) registers the
factory type for (Coder, Field, Capabilities) under the derived
factory name. -/
def factory (coder : String) (f : Field) (caps : List Capability)
    (stack : String) (st : RunState) : RunState × Option RegError :=
  registerBinding st (mkBinding coder f caps Role.factoryRole stack)

/-- Modelled from the spec: encoder.hpp (not under src/) registers the
encoder type for (Coder, Field, Capabilities) under the derived
encoder name. -/
def encoder (coder : String) (f : Field) (caps : List Capability)
    (stack : String) (st : RunState) : RunState × Option RegError :=
  registerBinding st (mkBinding coder f caps Role.encoderRole stack)

/-- Modelled from the spec: decoder.hpp (not under src/) registers the
decoder type for (Coder, Field, Capabilities) under the derived
decoder name. -/
def decoder (coder : String) (f : Field) (caps : List Capability)
    (stack : String) (st : RunState) : RunState × Option RegError :=
  registerBinding st (mkBinding coder f caps Role.decoderRole stack)

/-- create_helpers.hpp lines 24-31: first create the factory type, then
the corresponding encoder type, both with
meta::typelist<kodo::enable_trace>. -/
def create_factory_and_encoder (coder : String) (f : Field)
    (stack : String) (st : RunState) : RunState × Option RegError :=
  andThen (factory coder f [Capability.enableTrace] stack st)
    (fun st1 => encoder coder f [Capability.enableTrace] stack st1)

/-- create_helpers.hpp lines 33-40: first create the factory type, then
the corresponding decoder type, both with
meta::typelist<kodo::enable_trace>. -/
def create_factory_and_decoder (coder : String) (f : Field)
    (stack : String) (st : RunState) : RunState × Option RegError :=
  andThen (factory coder f [Capability.enableTrace] stack st)
    (fun st1 => decoder coder f [Capability.enableTrace] stack st1)

/-- create_helpers.hpp lines 42-49: the encoder Driver expands the four
field variants in the fixed order binary, binary4, binary8, binary16. -/
def create_encoder (coder : String) (stack : String) (st : RunState) :
    RunState × Option RegError :=
  andThen (create_factory_and_encoder coder Field.binary stack st) (fun st1 =>
    andThen (create_factory_and_encoder coder Field.binary4 stack st1) (fun st2 =>
      andThen (create_factory_and_encoder coder Field.binary8 stack st2) (fun st3 =>
        create_factory_and_encoder coder Field.binary16 stack st3)))

/-- create_helpers.hpp lines 51-58: the decoder Driver expands the four
field variants in the fixed order binary, binary4, binary8, binary16. -/
def create_decoder (coder : String) (stack : String) (st : RunState) :
    RunState × Option RegError :=
  andThen (create_factory_and_decoder coder Field.binary stack st) (fun st1 =>
    andThen (create_factory_and_decoder coder Field.binary4 stack st1) (fun st2 =>
      andThen (create_factory_and_decoder coder Field.binary8 stack st2) (fun st3 =>
        create_factory_and_decoder coder Field.binary16 stack st3)))

/-- The sequence of bindings one Driver invocation hands to the host
registration mechanism, in call order: for each field variant in the fixed
order, the factory binding then the binding of the requested role. -/
def plannedBindings (coder : String) (stack : String) (r : Role) : List Binding :=
  [mkBinding coder Field.binary [Capability.enableTrace] Role.factoryRole stack,
   mkBinding coder Field.binary [Capability.enableTrace] r stack,
   mkBinding coder Field.binary4 [Capability.enableTrace] Role.factoryRole stack,
   mkBinding coder Field.binary4 [Capability.enableTrace] r stack,
   mkBinding coder Field.binary8 [Capability.enableTrace] Role.factoryRole stack,
   mkBinding coder Field.binary8 [Capability.enableTrace] r stack,
   mkBinding coder Field.binary16 [Capability.enableTrace] Role.factoryRole stack,
   mkBinding coder Field.binary16 [Capability.enableTrace] r stack]

/-- Fold the register-under-name operation over a list of bindings,
aborting at the first error, as the exception does in the source. -/
def registerAll (st : RunState) : List Binding → RunState × Option RegError
  | [] => (st, none)
  | b :: bs =>
    match registerBinding st b with
    | (st1, none) => registerAll st1 bs
    | (st1, some e) => (st1, some e)

/-- The factory binding that must precede a given role binding: same coder
template, field and capability list, with the factory role and the factory
name derived from the same stack identifier. -/
def matchingFactory (stack : String) (b : Binding) : Binding :=
  mkBinding b.coder b.field b.caps Role.factoryRole stack

/-- Ordering invariant of a registration sequence: every binding that is
not a factory binding is preceded, strictly earlier in the sequence, by
its matching factory binding. -/
def factoryFirst (stack : String) (bs : List Binding) : Prop :=
  ∀ pre b post, bs = pre ++ b :: post → b.role ≠ Role.factoryRole →
    matchingFactory stack b ∈ pre

lemma andThen_assoc (r : RunState × Option RegError)
    (f g : RunState → RunState × Option RegError) :
    andThen (andThen r f) g = andThen r (fun st => andThen (f st) g) := by
  rcases r with ⟨st, e⟩
  cases e <;> rfl

lemma andThen_pure (r : RunState × Option RegError) :
    andThen r (fun st => (st, none)) = r := by
  rcases r with ⟨st, e⟩
  cases e <;> rfl

lemma registerAll_nil (st : RunState) : registerAll st [] = (st, none) := rfl

lemma registerAll_cons (st : RunState) (b : Binding) (bs : List Binding) :
    registerAll st (b :: bs) =
      andThen (registerBinding st b) (fun st1 => registerAll st1 bs) := by
  show _ = andThen (registerBinding st b) _
  rcases h : registerBinding st b with ⟨st1, e⟩
  cases e <;> simp [registerAll, h, andThen]

lemma create_encoder_eq_registerAll (coder stack : String) (st : RunState) :
    create_encoder coder stack st =
      registerAll st (plannedBindings coder stack Role.encoderRole) := by
  simp [create_encoder, create_factory_and_encoder, plannedBindings,
    registerAll_cons, registerAll_nil, andThen_assoc, andThen_pure, factory, encoder]

lemma string_append_right_inj (s : String) {a b : String}
    (h : s ++ a = s ++ b) : a = b := by
  have h2 : s.data ++ a.data = s.data ++ b.data := by
    have h3 := congrArg String.data h
    simpa using h3
  have h4 : a.data = b.data := List.append_cancel_left h2
  cases a; cases b; exact congrArg String.mk h4

lemma registerBinding_of_fresh (st : RunState) (b : Binding)
    (h : ¬ b.name ∈ st.reg.map Binding.name) :
    registerBinding st b =
      ({ reg := st.reg ++ [b], attempts := st.attempts ++ [b.name] }, none) := by
  have hc : st.reg.any (fun b0 => b0.name == b.name) = false := by
    rw [List.any_eq_false]
    intro b0 hb0
    simp only [beq_iff_eq]
    intro he
    exact h (List.mem_map.mpr ⟨b0, hb0, he⟩)
  simp [registerBinding, hc]

lemma registerBinding_of_mem (st : RunState) (b : Binding)
    (h : b.name ∈ st.reg.map Binding.name) :
    registerBinding st b =
      ({ reg := st.reg, attempts := st.attempts ++ [b.name] },
        some (RegError.nameCollision b.name)) := by
  have hc : st.reg.any (fun b0 => b0.name == b.name) = true := by
    rw [List.any_eq_true]
    obtain ⟨b0, hb0, he⟩ := List.mem_map.mp h
    exact ⟨b0, hb0, by simp [he]⟩
  simp [registerBinding, hc]

lemma registerBinding_none_inv (st : RunState) (b : Binding) (st1 : RunState)
    (h : registerBinding st b = (st1, none)) :
    st1 = { reg := st.reg ++ [b], attempts := st.attempts ++ [b.name] } ∧
      ¬ b.name ∈ st.reg.map Binding.name := by
  by_cases hm : b.name ∈ st.reg.map Binding.name
  · rw [registerBinding_of_mem st b hm] at h
    exact absurd (congrArg Prod.snd h) (by simp)
  · rw [registerBinding_of_fresh st b hm] at h
    exact ⟨(congrArg Prod.fst h).symm, hm⟩

lemma registerBinding_some_inv (st : RunState) (b : Binding) (st1 : RunState)
    (e : RegError) (h : registerBinding st b = (st1, some e)) :
    st1 = { reg := st.reg, attempts := st.attempts ++ [b.name] } ∧
      e = RegError.nameCollision b.name ∧ b.name ∈ st.reg.map Binding.name := by
  by_cases hm : b.name ∈ st.reg.map Binding.name
  · rw [registerBinding_of_mem st b hm] at h
    have h1 := congrArg Prod.fst h
    have h2 := congrArg Prod.snd h
    simp at h1 h2
    exact ⟨h1.symm, h2.symm, hm⟩
  · rw [registerBinding_of_fresh st b hm] at h
    exact absurd (congrArg Prod.snd h) (by simp)

lemma registerAll_ok_of_fresh (bs : List Binding) : ∀ st : RunState,
    (bs.map Binding.name).Nodup →
    (∀ b ∈ bs, ¬ b.name ∈ st.reg.map Binding.name) →
    registerAll st bs =
      ({ reg := st.reg ++ bs, attempts := st.attempts ++ bs.map Binding.name },
        none) := by
  induction bs with
  | nil => intro st _ _; simp [registerAll_nil]
  | cons b bs ih =>
    intro st hnd hfresh
    rw [registerAll_cons, registerBinding_of_fresh st b (hfresh b (by simp))]
    show registerAll _ bs = _
    rw [ih _ (by simpa using hnd.of_cons) ?fresh]
    case fresh =>
      intro b2 hb2
      simp only [List.map_append, List.mem_append, List.map_cons, List.map_nil]
      rintro (h1 | h2)
      · exact hfresh b2 (List.mem_cons_of_mem b hb2) h1
      · have hne : b2.name ≠ b.name := by
          have := List.nodup_cons.mp hnd
          intro hEq
          exact this.1 (hEq ▸ List.mem_map.mpr ⟨b2, hb2, rfl⟩)
        simp at h2
        exact hne h2
    simp

lemma registerAll_none_inv (bs : List Binding) : ∀ st st' : RunState,
    registerAll st bs = (st', none) →
    st' = { reg := st.reg ++ bs, attempts := st.attempts ++ bs.map Binding.name } := by
  induction bs with
  | nil =>
    intro st st' h
    rw [registerAll_nil] at h
    have h1 := congrArg Prod.fst h
    simp at h1
    simp [← h1]
  | cons b bs ih =>
    intro st st' h
    rw [registerAll_cons] at h
    rcases hb : registerBinding st b with ⟨st1, e⟩
    rw [hb] at h
    cases e with
    | none =>
      obtain ⟨hst1, -⟩ := registerBinding_none_inv st b st1 hb
      have h2 := ih st1 st' h
      rw [hst1] at h2
      simpa using h2
    | some e0 =>
      exact absurd (congrArg Prod.snd h) (by simp [andThen])

lemma registerAll_some_inv (bs : List Binding) : ∀ st st' : RunState, ∀ e : RegError,
    registerAll st bs = (st', some e) →
    ∃ k, ∃ hk : k < bs.length,
      e = RegError.nameCollision (bs.get ⟨k, hk⟩).name ∧
      (bs.get ⟨k, hk⟩).name ∈ (st.reg ++ bs.take k).map Binding.name ∧
      st' = { reg := st.reg ++ bs.take k,
              attempts := st.attempts ++ (bs.take (k + 1)).map Binding.name } := by
  induction bs with
  | nil =>
    intro st st' e h
    rw [registerAll_nil] at h
    exact absurd (congrArg Prod.snd h) (by simp)
  | cons b bs ih =>
    intro st st' e h
    rw [registerAll_cons] at h
    rcases hb : registerBinding st b with ⟨st1, e1⟩
    rw [hb] at h
    cases e1 with
    | none =>
      obtain ⟨hst1, -⟩ := registerBinding_none_inv st b st1 hb
      obtain ⟨k, hk, he, hmem, hst⟩ := ih st1 st' e h
      refine ⟨k + 1, by simpa using Nat.succ_lt_succ hk, ?_, ?_, ?_⟩
      · simpa using he
      · rw [hst1] at hmem
        simpa [List.append_assoc] using hmem
      · rw [hst1] at hst
        simpa [List.append_assoc] using hst
    | some e0 =>
      have h2 := congrArg Prod.snd h
      have h1 := congrArg Prod.fst h
      simp [andThen] at h1 h2
      obtain ⟨hst1, he0, hmem⟩ := registerBinding_some_inv st b st1 e0 hb
      refine ⟨0, by simp, ?_, ?_, ?_⟩
      · rw [← h2, he0]
        rfl
      · simpa using hmem
      · rw [← h1, hst1]
        simp

lemma registerAll_reg_take (bs : List Binding) : ∀ st : RunState, ∃ k,
    k ≤ bs.length ∧ (registerAll st bs).1.reg = st.reg ++ bs.take k := by
  induction bs with
  | nil => intro st; exact ⟨0, by simp, by simp [registerAll_nil]⟩
  | cons b bs ih =>
    intro st
    rw [registerAll_cons]
    rcases hb : registerBinding st b with ⟨st1, e⟩
    cases e with
    | none =>
      obtain ⟨hst1, -⟩ := registerBinding_none_inv st b st1 hb
      obtain ⟨k, hk, hreg⟩ := ih st1
      refine ⟨k + 1, by simpa using Nat.succ_le_succ hk, ?_⟩
      show (registerAll st1 bs).1.reg = _
      rw [hreg, hst1]
      simp
    | some e0 =>
      obtain ⟨hst1, -, -⟩ := registerBinding_some_inv st b st1 e0 hb
      refine ⟨0, by simp, ?_⟩
      show st1.reg = st.reg ++ []
      rw [hst1]
      simp

lemma registerAll_attempts (bs : List Binding) : ∀ st : RunState, ∃ t : List String,
    (registerAll st bs).1.attempts = st.attempts ++ t ∧ t.length ≤ bs.length := by
  induction bs with
  | nil => intro st; exact ⟨[], by simp [registerAll_nil], by simp⟩
  | cons b bs ih =>
    intro st
    rw [registerAll_cons]
    rcases hb : registerBinding st b with ⟨st1, e⟩
    cases e with
    | none =>
      obtain ⟨hst1, -⟩ := registerBinding_none_inv st b st1 hb
      obtain ⟨t, ht, hlen⟩ := ih st1
      refine ⟨b.name :: t, ?_, by simpa using Nat.succ_le_succ hlen⟩
      show (registerAll st1 bs).1.attempts = _
      rw [ht, hst1]
      simp
    | some e0 =>
      obtain ⟨hst1, -, -⟩ := registerBinding_some_inv st b st1 e0 hb
      refine ⟨[b.name], ?_, by simp⟩
      show st1.attempts = _
      rw [hst1]

lemma create_decoder_eq_registerAll (coder stack : String) (st : RunState) :
    create_decoder coder stack st =
      registerAll st (plannedBindings coder stack Role.decoderRole) := by
  simp [create_decoder, create_factory_and_decoder, plannedBindings,
    registerAll_cons, registerAll_nil, andThen_assoc, andThen_pure, factory, decoder]

lemma planned_names_nodup (coder stack : String) (r : Role)
    (hr : r ≠ Role.factoryRole) :
    ((plannedBindings coder stack r).map Binding.name).Nodup := by
  have hmap : (plannedBindings coder stack r).map Binding.name =
      [nameSuffix Field.binary Role.factoryRole, nameSuffix Field.binary r,
       nameSuffix Field.binary4 Role.factoryRole, nameSuffix Field.binary4 r,
       nameSuffix Field.binary8 Role.factoryRole, nameSuffix Field.binary8 r,
       nameSuffix Field.binary16 Role.factoryRole, nameSuffix Field.binary16 r].map
        (fun sfx => stack ++ sfx) := rfl
  rw [hmap]
  refine List.Nodup.map (fun a b hab => string_append_right_inj stack hab) ?_
  cases r with
  | factoryRole => exact absurd rfl hr
  | encoderRole => decide
  | decoderRole => decide

lemma factoryFirst_append {stack : String} {l1 l2 : List Binding}
    (h1 : factoryFirst stack l1) (h2 : factoryFirst stack l2) :
    factoryFirst stack (l1 ++ l2) := by
  intro pre b post hsplit hb
  rcases List.append_eq_append_iff.mp hsplit with ⟨a2, ha1, ha2⟩ | ⟨c2, hc1, hc2⟩
  · rw [ha1]
    exact List.mem_append_right l1 (h2 a2 b post ha2 hb)
  · rcases c2 with _ | ⟨x, c2⟩
    · have hl2 : l2 = b :: post := by simpa using hc2.symm
      exact absurd (h2 [] b post (by simpa using hl2) hb) (by simp)
    · have hx : b = x ∧ post = c2 ++ l2 := by
        have h3 := hc2
        simp only [List.cons_append] at h3
        exact ⟨(List.cons.inj h3).1, (List.cons.inj h3).2⟩
      obtain ⟨hbx, -⟩ := hx
      exact h1 pre b c2 (by rw [hc1, hbx]) hb

lemma factoryFirst_take {stack : String} {bs : List Binding}
    (h : factoryFirst stack bs) (k : Nat) : factoryFirst stack (bs.take k) := by
  intro pre b post hsplit hb
  refine h pre b (post ++ bs.drop k) ?_ hb
  conv_lhs => rw [← List.take_append_drop k bs, hsplit]
  simp

lemma factoryFirst_pair (stack coder : String) (f : Field)
    (caps : List Capability) (r : Role) :
    factoryFirst stack
      [mkBinding coder f caps Role.factoryRole stack, mkBinding coder f caps r stack] := by
  intro pre b post hsplit hb
  rcases pre with _ | ⟨x, pre⟩
  · rw [List.nil_append] at hsplit
    have h1 := (List.cons.inj hsplit).1
    rw [← h1] at hb
    exact absurd rfl hb
  · rcases pre with _ | ⟨y, pre⟩
    · simp only [List.cons_append, List.nil_append] at hsplit
      have h1 := (List.cons.inj hsplit).1
      have h2 := (List.cons.inj (List.cons.inj hsplit).2).1
      rw [← h2]
      simp [matchingFactory, mkBinding, ← h1]
    · simp only [List.cons_append] at hsplit
      have h2 := (List.cons.inj (List.cons.inj hsplit).2).2
      exact absurd h2 (by simp)

lemma factoryFirst_planned (coder stack : String) (r : Role) :
    factoryFirst stack (plannedBindings coder stack r) := by
  have h :=
    factoryFirst_append (factoryFirst_pair stack coder Field.binary [Capability.enableTrace] r)
      (factoryFirst_append (factoryFirst_pair stack coder Field.binary4 [Capability.enableTrace] r)
        (factoryFirst_append (factoryFirst_pair stack coder Field.binary8 [Capability.enableTrace] r)
          (factoryFirst_pair stack coder Field.binary16 [Capability.enableTrace] r)))
  simpa [plannedBindings] using h

lemma registerAll_head_mem (st : RunState) (b : Binding) (bs : List Binding)
    (h : b.name ∈ st.reg.map Binding.name) :
    registerAll st (b :: bs) =
      ({ reg := st.reg, attempts := st.attempts ++ [b.name] },
        some (RegError.nameCollision b.name)) := by
  rw [registerAll_cons, registerBinding_of_mem st b h]
  rfl

/-- C1: for every coder template and stack identifier, one Driver invocation
for a role, run against a registry holding none of the derived names,
registers exactly the 8 planned bindings and nothing else: 4 factory
bindings and 4 role bindings, one factory/role pair per field variant,
iterating the field variants in the fixed order binary, binary4, binary8,
binary16. -/
theorem c1_driver_registers_four_pairs (coder stack : String) (st : RunState)
    (hE : ∀ b ∈ plannedBindings coder stack Role.encoderRole,
      ¬ b.name ∈ st.reg.map Binding.name)
    (hD : ∀ b ∈ plannedBindings coder stack Role.decoderRole,
      ¬ b.name ∈ st.reg.map Binding.name) :
    create_encoder coder stack st =
      ({ reg := st.reg ++ plannedBindings coder stack Role.encoderRole,
         attempts := st.attempts ++
           (plannedBindings coder stack Role.encoderRole).map Binding.name }, none) ∧
    create_decoder coder stack st =
      ({ reg := st.reg ++ plannedBindings coder stack Role.decoderRole,
         attempts := st.attempts ++
           (plannedBindings coder stack Role.decoderRole).map Binding.name }, none) ∧
    ((plannedBindings coder stack Role.encoderRole).filter
      (fun b => b.role == Role.factoryRole)).length = 4 ∧
    ((plannedBindings coder stack Role.encoderRole).filter
      (fun b => b.role == Role.encoderRole)).length = 4 ∧
    ((plannedBindings coder stack Role.decoderRole).filter
      (fun b => b.role == Role.factoryRole)).length = 4 ∧
    ((plannedBindings coder stack Role.decoderRole).filter
      (fun b => b.role == Role.decoderRole)).length = 4 ∧
    (plannedBindings coder stack Role.encoderRole).length = 8 ∧
    (plannedBindings coder stack Role.decoderRole).length = 8 ∧
    (plannedBindings coder stack Role.encoderRole).map Binding.field =
      [Field.binary, Field.binary, Field.binary4, Field.binary4,
       Field.binary8, Field.binary8, Field.binary16, Field.binary16] ∧
    (plannedBindings coder stack Role.decoderRole).map Binding.field =
      [Field.binary, Field.binary, Field.binary4, Field.binary4,
       Field.binary8, Field.binary8, Field.binary16, Field.binary16] := by
  refine ⟨?_, ?_, rfl, rfl, rfl, rfl, rfl, rfl, rfl, rfl⟩
  · rw [create_encoder_eq_registerAll,
      registerAll_ok_of_fresh _ st (planned_names_nodup coder stack _ (by decide)) hE]
  · rw [create_decoder_eq_registerAll,
      registerAll_ok_of_fresh _ st (planned_names_nodup coder stack _ (by decide)) hD]

/-- Witness for C1 at coder "full_rlnc_stack", stack "full_rlnc" and the
empty registry. -/
theorem c1_driver_registers_four_pairs_w :
    (create_encoder "full_rlnc_stack" "full_rlnc" { reg := [], attempts := [] }).2 = none ∧
    (create_decoder "full_rlnc_stack" "full_rlnc" { reg := [], attempts := [] }).2 = none := by
  have h := c1_driver_registers_four_pairs "full_rlnc_stack" "full_rlnc"
    { reg := [], attempts := [] } (by decide) (by decide)
  exact ⟨by rw [h.1], by rw [h.2.1]⟩

/-- C2: every sequence of registrations produced by a Driver invocation
extends the registry monotonically (the pre-existing registry is preserved
as a prefix, nothing is removed), and within the newly appended segment
every role binding is preceded, strictly earlier in insertion order, by
its matching factory binding. -/
theorem c2_factory_before_role_monotone (coder stack : String) (st : RunState) :
    (∃ t, (create_encoder coder stack st).1.reg = st.reg ++ t ∧ factoryFirst stack t) ∧
    (∃ t, (create_decoder coder stack st).1.reg = st.reg ++ t ∧ factoryFirst stack t) := by
  constructor
  · obtain ⟨k, -, hreg⟩ :=
      registerAll_reg_take (plannedBindings coder stack Role.encoderRole) st
    refine ⟨(plannedBindings coder stack Role.encoderRole).take k, ?_,
      factoryFirst_take (factoryFirst_planned coder stack Role.encoderRole) k⟩
    rw [create_encoder_eq_registerAll]
    exact hreg
  · obtain ⟨k, -, hreg⟩ :=
      registerAll_reg_take (plannedBindings coder stack Role.decoderRole) st
    refine ⟨(plannedBindings coder stack Role.decoderRole).take k, ?_,
      factoryFirst_take (factoryFirst_planned coder stack Role.decoderRole) k⟩
    rw [create_decoder_eq_registerAll]
    exact hreg

/-- C3: a second invocation of the same Driver for the same coder template
and stack identifier fails with a naming-collision error on the first
registration attempted in the second pass (the binary factory name);
exactly that one name is attempted and the registry is left unchanged, so
no binding from the second pass is registered. -/
theorem c3_second_invocation_collides (coder stack : String) (st stE stD : RunState)
    (hE : create_encoder coder stack st = (stE, none))
    (hD : create_decoder coder stack st = (stD, none)) :
    create_encoder coder stack stE =
      ({ reg := stE.reg,
         attempts := stE.attempts ++ [deriveName stack Field.binary Role.factoryRole] },
        some (RegError.nameCollision (deriveName stack Field.binary Role.factoryRole))) ∧
    create_decoder coder stack stD =
      ({ reg := stD.reg,
         attempts := stD.attempts ++ [deriveName stack Field.binary Role.factoryRole] },
        some (RegError.nameCollision (deriveName stack Field.binary Role.factoryRole))) := by
  constructor
  · have hE2 : registerAll st (plannedBindings coder stack Role.encoderRole) = (stE, none) := by
      rw [← create_encoder_eq_registerAll]
      exact hE
    have hstE := registerAll_none_inv _ st stE hE2
    have hmem : (mkBinding coder Field.binary [Capability.enableTrace]
        Role.factoryRole stack).name ∈ stE.reg.map Binding.name := by
      rw [hstE]
      simp [plannedBindings]
    rw [create_encoder_eq_registerAll]
    exact registerAll_head_mem stE _ _ hmem
  · have hD2 : registerAll st (plannedBindings coder stack Role.decoderRole) = (stD, none) := by
      rw [← create_decoder_eq_registerAll]
      exact hD
    have hstD := registerAll_none_inv _ st stD hD2
    have hmem : (mkBinding coder Field.binary [Capability.enableTrace]
        Role.factoryRole stack).name ∈ stD.reg.map Binding.name := by
      rw [hstD]
      simp [plannedBindings]
    rw [create_decoder_eq_registerAll]
    exact registerAll_head_mem stD _ _ hmem

/-- Witness for C3: a concrete successful first pass on the empty registry,
then the failing second pass. -/
theorem c3_second_invocation_collides_w :
    (create_encoder "c" "s" (create_encoder "c" "s" { reg := [], attempts := [] }).1).2 =
      some (RegError.nameCollision "s_binary_factory") ∧
    (create_decoder "c" "s" (create_decoder "c" "s" { reg := [], attempts := [] }).1).2 =
      some (RegError.nameCollision "s_binary_factory") := by
  have h := c3_second_invocation_collides "c" "s" { reg := [], attempts := [] }
    (create_encoder "c" "s" { reg := [], attempts := [] }).1
    (create_decoder "c" "s" { reg := [], attempts := [] }).1
    (by rfl) (by rfl)
  exact ⟨by rw [h.1]; rfl, by rw [h.2]; rfl⟩

/-- C4: the 8 derived binding names of a single Driver invocation are
pairwise distinct (for the encoder Driver and for the decoder Driver), and
registering the same (Coder, Field) pair a second time under the same
stack identifier always produces a name collision, for each of the three
registrars. -/
theorem c4_derived_names_distinct (coder coder2 stack : String) (f : Field)
    (caps2 : List Capability) (st : RunState)
    (hf : deriveName stack f Role.factoryRole ∈ st.reg.map Binding.name)
    (he : deriveName stack f Role.encoderRole ∈ st.reg.map Binding.name)
    (hd : deriveName stack f Role.decoderRole ∈ st.reg.map Binding.name) :
    ((plannedBindings coder stack Role.encoderRole).map Binding.name).Nodup ∧
    ((plannedBindings coder stack Role.decoderRole).map Binding.name).Nodup ∧
    (factory coder2 f caps2 stack st).2 =
      some (RegError.nameCollision (deriveName stack f Role.factoryRole)) ∧
    (encoder coder2 f caps2 stack st).2 =
      some (RegError.nameCollision (deriveName stack f Role.encoderRole)) ∧
    (decoder coder2 f caps2 stack st).2 =
      some (RegError.nameCollision (deriveName stack f Role.decoderRole)) := by
  refine ⟨planned_names_nodup coder stack _ (by decide),
    planned_names_nodup coder stack _ (by decide), ?_, ?_, ?_⟩
  · show (registerBinding st (mkBinding coder2 f caps2 Role.factoryRole stack)).2 = _
    rw [registerBinding_of_mem st _ hf]
    rfl
  · show (registerBinding st (mkBinding coder2 f caps2 Role.encoderRole stack)).2 = _
    rw [registerBinding_of_mem st _ he]
    rfl
  · show (registerBinding st (mkBinding coder2 f caps2 Role.decoderRole stack)).2 = _
    rw [registerBinding_of_mem st _ hd]
    rfl

/-- Witness for C4 at a concrete registry holding the three bindings for
the pair (coder "c", field binary) under stack identifier "s". -/
theorem c4_derived_names_distinct_w :
    (factory "c2" Field.binary [] "s"
      { reg := [mkBinding "c" Field.binary [Capability.enableTrace] Role.factoryRole "s",
                mkBinding "c" Field.binary [Capability.enableTrace] Role.encoderRole "s",
                mkBinding "c" Field.binary [Capability.enableTrace] Role.decoderRole "s"],
        attempts := [] }).2 =
      some (RegError.nameCollision "s_binary_factory") := by
  have h := c4_derived_names_distinct "c" "c2" "s" Field.binary []
    { reg := [mkBinding "c" Field.binary [Capability.enableTrace] Role.factoryRole "s",
              mkBinding "c" Field.binary [Capability.enableTrace] Role.encoderRole "s",
              mkBinding "c" Field.binary [Capability.enableTrace] Role.decoderRole "s"],
      attempts := [] }
    (by decide) (by decide) (by decide)
  rw [h.2.2.1]
  rfl

/-- C5: calling the encoder Driver with stack identifier "full_rlnc" on an
empty registry succeeds and registers exactly the eight bindings named
full_rlnc_binary_factory, full_rlnc_binary_encoder, full_rlnc_binary4_factory,
full_rlnc_binary4_encoder, full_rlnc_binary8_factory, full_rlnc_binary8_encoder,
full_rlnc_binary16_factory, full_rlnc_binary16_encoder, in exactly that
left-to-right insertion order. -/
theorem c5_full_rlnc_names (coder : String) :
    (create_encoder coder "full_rlnc" { reg := [], attempts := [] }).2 = none ∧
    (create_encoder coder "full_rlnc" { reg := [], attempts := [] }).1.reg.map Binding.name =
      ["full_rlnc_binary_factory", "full_rlnc_binary_encoder",
       "full_rlnc_binary4_factory", "full_rlnc_binary4_encoder",
       "full_rlnc_binary8_factory", "full_rlnc_binary8_encoder",
       "full_rlnc_binary16_factory", "full_rlnc_binary16_encoder"] ∧
    (create_encoder coder "full_rlnc" { reg := [], attempts := [] }).1.attempts =
      ["full_rlnc_binary_factory", "full_rlnc_binary_encoder",
       "full_rlnc_binary4_factory", "full_rlnc_binary4_encoder",
       "full_rlnc_binary8_factory", "full_rlnc_binary8_encoder",
       "full_rlnc_binary16_factory", "full_rlnc_binary16_encoder"] :=
  ⟨rfl, rfl, rfl⟩

/-- C6: both Drivers hand the registration mechanism exactly the planned
binding sequence, and every planned binding — the factory binding and its
matching role binding alike — carries the identical one-element capability
list enabling tracing. -/
theorem c6_capability_list_uniform (coder stack : String) (st : RunState) :
    create_encoder coder stack st =
      registerAll st (plannedBindings coder stack Role.encoderRole) ∧
    create_decoder coder stack st =
      registerAll st (plannedBindings coder stack Role.decoderRole) ∧
    (plannedBindings coder stack Role.encoderRole).map Binding.caps =
      List.replicate 8 [Capability.enableTrace] ∧
    (plannedBindings coder stack Role.decoderRole).map Binding.caps =
      List.replicate 8 [Capability.enableTrace] :=
  ⟨create_encoder_eq_registerAll coder stack st,
   create_decoder_eq_registerAll coder stack st, rfl, rfl⟩

/-- C7: when a registration inside a Driver invocation fails, the failure
is the naming collision of the registration at some position k of the
planned sequence; the registry keeps exactly the bindings registered
before that point (no rollback), the attempt trace records exactly the
attempts up to and including the failing one (the failing registration was
attempted, not skipped), and nothing after position k was attempted (the
remaining expansion is aborted, with no retry). -/
theorem c7_failure_aborts_no_rollback (coder stack : String) (st stE stD : RunState)
    (eE eD : RegError)
    (hE : create_encoder coder stack st = (stE, some eE))
    (hD : create_decoder coder stack st = (stD, some eD)) :
    (∃ k, ∃ hk : k < (plannedBindings coder stack Role.encoderRole).length,
      eE = RegError.nameCollision
        ((plannedBindings coder stack Role.encoderRole).get ⟨k, hk⟩).name ∧
      stE.reg = st.reg ++ (plannedBindings coder stack Role.encoderRole).take k ∧
      stE.attempts = st.attempts ++
        ((plannedBindings coder stack Role.encoderRole).take (k + 1)).map Binding.name) ∧
    (∃ k, ∃ hk : k < (plannedBindings coder stack Role.decoderRole).length,
      eD = RegError.nameCollision
        ((plannedBindings coder stack Role.decoderRole).get ⟨k, hk⟩).name ∧
      stD.reg = st.reg ++ (plannedBindings coder stack Role.decoderRole).take k ∧
      stD.attempts = st.attempts ++
        ((plannedBindings coder stack Role.decoderRole).take (k + 1)).map Binding.name) := by
  constructor
  · have hE2 : registerAll st (plannedBindings coder stack Role.encoderRole) =
        (stE, some eE) := by
      rw [← create_encoder_eq_registerAll]
      exact hE
    obtain ⟨k, hk, h1, -, h3⟩ := registerAll_some_inv _ st stE eE hE2
    exact ⟨k, hk, h1, by rw [h3], by rw [h3]⟩
  · have hD2 : registerAll st (plannedBindings coder stack Role.decoderRole) =
        (stD, some eD) := by
      rw [← create_decoder_eq_registerAll]
      exact hD
    obtain ⟨k, hk, h1, -, h3⟩ := registerAll_some_inv _ st stD eD hD2
    exact ⟨k, hk, h1, by rw [h3], by rw [h3]⟩

/-- Witness for C7: from a registry already holding the binary factory
binding, both Drivers fail; the theorem applies with a concrete failing
run. -/
theorem c7_failure_aborts_no_rollback_w :
    0 < (plannedBindings "c" "s" Role.encoderRole).length ∧
    0 < (plannedBindings "c" "s" Role.decoderRole).length := by
  have h := c7_failure_aborts_no_rollback "c" "s"
    { reg := [mkBinding "c" Field.binary [Capability.enableTrace] Role.factoryRole "s"],
      attempts := [] }
    { reg := [mkBinding "c" Field.binary [Capability.enableTrace] Role.factoryRole "s"],
      attempts := ["s_binary_factory"] }
    { reg := [mkBinding "c" Field.binary [Capability.enableTrace] Role.factoryRole "s"],
      attempts := ["s_binary_factory"] }
    (RegError.nameCollision "s_binary_factory")
    (RegError.nameCollision "s_binary_factory")
    (by rfl) (by rfl)
  obtain ⟨⟨k1, hk1, -⟩, ⟨k2, hk2, -⟩⟩ := h
  exact ⟨Nat.lt_of_le_of_lt (Nat.zero_le k1) hk1,
    Nat.lt_of_le_of_lt (Nat.zero_le k2) hk2⟩

/-- C8: every Driver invocation performs a bounded, synchronous sequence
of registration attempts: the attempt trace grows by at most eight
entries (four field variants times two registrar calls). -/
theorem c8_at_most_eight_attempts (coder stack : String) (st : RunState) :
    (∃ t, (create_encoder coder stack st).1.attempts = st.attempts ++ t ∧
      t.length ≤ 8) ∧
    (∃ t, (create_decoder coder stack st).1.attempts = st.attempts ++ t ∧
      t.length ≤ 8) := by
  constructor
  · obtain ⟨t, ht, hlen⟩ :=
      registerAll_attempts (plannedBindings coder stack Role.encoderRole) st
    refine ⟨t, ?_, hlen⟩
    rw [create_encoder_eq_registerAll]
    exact ht
  · obtain ⟨t, ht, hlen⟩ :=
      registerAll_attempts (plannedBindings coder stack Role.decoderRole) st
    refine ⟨t, ?_, hlen⟩
    rw [create_decoder_eq_registerAll]
    exact ht

/-- C9: the factory registration is role-independent — the factory
bindings planned by the encoder Driver and by the decoder Driver for the
same coder template and stack identifier are identical (same field, same
capability list, same name) — so after a successful encoder Driver
invocation, the decoder Driver fails on its very first factory
registration with a naming collision, attempting only that one name and
registering nothing. -/
theorem c9_factory_role_independent (coder stack : String) (st stE : RunState)
    (hE : create_encoder coder stack st = (stE, none)) :
    (plannedBindings coder stack Role.encoderRole).filter
        (fun b => b.role == Role.factoryRole) =
      (plannedBindings coder stack Role.decoderRole).filter
        (fun b => b.role == Role.factoryRole) ∧
    create_decoder coder stack stE =
      ({ reg := stE.reg,
         attempts := stE.attempts ++ [deriveName stack Field.binary Role.factoryRole] },
        some (RegError.nameCollision (deriveName stack Field.binary Role.factoryRole))) := by
  refine ⟨rfl, ?_⟩
  have hE2 : registerAll st (plannedBindings coder stack Role.encoderRole) = (stE, none) := by
    rw [← create_encoder_eq_registerAll]
    exact hE
  have hstE := registerAll_none_inv _ st stE hE2
  have hmem : (mkBinding coder Field.binary [Capability.enableTrace]
      Role.factoryRole stack).name ∈ stE.reg.map Binding.name := by
    rw [hstE]
    simp [plannedBindings]
  rw [create_decoder_eq_registerAll]
  exact registerAll_head_mem stE _ _ hmem

/-- Witness for C9: encoder Driver run on the empty registry, then the
decoder Driver on the result. -/
theorem c9_factory_role_independent_w :
    (create_decoder "c" "s" (create_encoder "c" "s" { reg := [], attempts := [] }).1).2 =
      some (RegError.nameCollision "s_binary_factory") := by
  have h := c9_factory_role_independent "c" "s" { reg := [], attempts := [] }
    (create_encoder "c" "s" { reg := [], attempts := [] }).1 (by rfl)
  rw [h.2]
  rfl

/-- C10: the Driver is deterministic: for a fixed coder template, role and
stack identifier, any two successful invocations append the identical
sequence of bindings (same types, same order, same names) — namely the
planned sequence, a function of the coder template and stack identifier
alone — and identical attempt traces, regardless of the prior registry
contents. -/
theorem c10_driver_deterministic (coder stack : String)
    (stA stB stC stD stA1 stB1 stC1 stD1 : RunState)
    (hA : create_encoder coder stack stA = (stA1, none))
    (hB : create_encoder coder stack stB = (stB1, none))
    (hC : create_decoder coder stack stC = (stC1, none))
    (hD : create_decoder coder stack stD = (stD1, none)) :
    stA1.reg.drop stA.reg.length = stB1.reg.drop stB.reg.length ∧
    stA1.attempts.drop stA.attempts.length = stB1.attempts.drop stB.attempts.length ∧
    stA1.reg.drop stA.reg.length = plannedBindings coder stack Role.encoderRole ∧
    stC1.reg.drop stC.reg.length = stD1.reg.drop stD.reg.length ∧
    stC1.attempts.drop stC.attempts.length = stD1.attempts.drop stD.attempts.length ∧
    stC1.reg.drop stC.reg.length = plannedBindings coder stack Role.decoderRole := by
  have hA2 := registerAll_none_inv _ stA stA1 (by rw [← create_encoder_eq_registerAll]; exact hA)
  have hB2 := registerAll_none_inv _ stB stB1 (by rw [← create_encoder_eq_registerAll]; exact hB)
  have hC2 := registerAll_none_inv _ stC stC1 (by rw [← create_decoder_eq_registerAll]; exact hC)
  have hD2 := registerAll_none_inv _ stD stD1 (by rw [← create_decoder_eq_registerAll]; exact hD)
  rw [hA2, hB2, hC2, hD2]
  simp [List.drop_left]

/-- Witness for C10: both Drivers run twice from the empty registry. -/
theorem c10_driver_deterministic_w :
    (create_encoder "c" "s" { reg := [], attempts := [] }).1.reg.drop
        (([] : List Binding).length) =
      plannedBindings "c" "s" Role.encoderRole := by
  have h := c10_driver_deterministic "c" "s"
    { reg := [], attempts := [] } { reg := [], attempts := [] }
    { reg := [], attempts := [] } { reg := [], attempts := [] }
    (create_encoder "c" "s" { reg := [], attempts := [] }).1
    (create_encoder "c" "s" { reg := [], attempts := [] }).1
    (create_decoder "c" "s" { reg := [], attempts := [] }).1
    (create_decoder "c" "s" { reg := [], attempts := [] }).1
    (by rfl) (by rfl) (by rfl) (by rfl)
  exact h.2.2.1

end KodoPython
